import Mathlib

set_option maxRecDepth 100000

/-!
Shallow embedding of src/src/wallet/crypter.cpp (encrypted key store of a
Zcash-derived wallet).  Byte buffers are modelled as lists of naturals;
the external primitives (libsodium KDF/AEAD, elliptic-curve key types,
hash digests, serialization) are out of scope per the specification and
are modelled as concrete executable functions so that every definition
evaluates on concrete inputs.
-/

/-- Fixed master/cipher key size, WALLET_CRYPTO_KEY_SIZE (crypter.h). -/
def WALLET_CRYPTO_KEY_SIZE : Nat := 32

/-- Modelled from the spec: the fixed salt size constant
WALLET_CRYPTO_SALT_SIZE declared in crypter.h (not under src/). -/
def WALLET_CRYPTO_SALT_SIZE : Nat := 8

/-- Authentication-tag size of the external AEAD, crypto_secretbox_MACBYTES. -/
def MACBYTES : Nat := 16

/-- Modelled from the spec: serialized size of a shielded spending key
(libzcash::SerializedSpendingKeySize, external collaborator). -/
def SerializedSpendingKeySize : Nat := 32

/-- Modelled from the spec: the external memory-hard KDF (crypto_pwhash).
It maps (passphrase, salt, rounds, memory cost) to a fixed-length byte
string; the concrete mixing function is an executable stand-in for the
opaque primitive. -/
def cryptoPwhash (outLen : Nat) (pass salt : List Nat) (rounds memlimit : Nat) : List Nat :=
  (List.range outLen).map (fun i => pass.foldl (fun a b => a * 2 + b) 1 + salt.foldl (fun a b => a * 3 + b) 2 + rounds * 5 + memlimit * 7 + i)

/-- Modelled from the spec: ReadCompactSize over the derivation-parameter
blob (streams.h, not under src/): decodes the leading variable-length
unsigned integer, failing on an empty or truncated encoding. -/
def readCompactSize : List Nat → Option Nat
  | [] => none
  | b :: rest =>
    if b < 253 then some b
    else if b = 253 then
      match rest with
      | l :: h :: _ => some (l + 256 * h)
      | _ => none
    else none

/-- Modelled from the spec: keystream byte of the external AEAD stream
cipher, determined by (key, nonce, position). -/
def ksByte (key iv : List Nat) (i : Nat) : Nat :=
  key.foldl (fun a b => a + b) 0 + 3 * iv.foldl (fun a b => a + b) 0 + 7 * i

/-- Stream-ciphering of a byte list with the keystream starting at
position i (xor is its own inverse, as for the external primitive). -/
def streamBytes (key iv : List Nat) : Nat → List Nat → List Nat
  | _, [] => []
  | i, b :: bs => (b ^^^ ksByte key iv i) :: streamBytes key iv (i + 1) bs

/-- Modelled from the spec: the authentication-tag mixing value of the
external AEAD, over (key, nonce, ciphertext body). -/
def macMix (key iv body : List Nat) : Nat :=
  key.foldl (fun a b => a * 31 + b) 7 + iv.foldl (fun a b => a * 37 + b) 11 + body.foldl (fun a b => a * 41 + b + 1) 13

/-- Authentication tag (MACBYTES bytes) of the external AEAD. -/
def macOf (key iv body : List Nat) : List Nat :=
  List.replicate MACBYTES (macMix key iv body)

/-- Modelled from the spec: crypto_secretbox_easy, ciphertext = tag over
the encrypted body, followed by the encrypted body. -/
def secretboxEasy (key iv m : List Nat) : List Nat :=
  macOf key iv (streamBytes key iv 0 m) ++ streamBytes key iv 0 m

/-- Modelled from the spec: crypto_secretbox_open_easy, rejecting inputs
shorter than the tag, then verifying the tag and deciphering the body. -/
def openEasy (key iv c : List Nat) : Option (List Nat) :=
  if c.length < MACBYTES then none
  else
    if c.take MACBYTES = macOf key iv (c.drop MACBYTES) then
      some (streamBytes key iv 0 (c.drop MACBYTES))
    else none

/-- CCrypter: cipher state, a (key, nonce) pair plus the readiness flag.
The uninitialized C++ member buffers of a fresh CCrypter are modelled as
empty lists. -/
structure Crypter where
  chKey : List Nat
  chIV : List Nat
  fKeySet : Bool
deriving DecidableEq, Repr

/-- A freshly constructed CCrypter: no key set. -/
def freshCrypter : Crypter := ⟨[], [], false⟩

/-- CCrypter::SetKeyFromPassphrase.  Mirrors the source: rejects bad
rounds/salt; for derivation method 0 decodes the memory-cost field and
derives key and IV through the external KDF; for any other method the
derivation block is skipped entirely and the function still marks the
key as set and returns success. -/
def setKeyFromPassphrase (cr : Crypter) (strKeyData chSalt : List Nat) (nRounds nDerivationMethod : Nat) (vchOtherDerivationParameters : List Nat) : Bool × Crypter :=
  if nRounds < 1 || chSalt.length ≠ WALLET_CRYPTO_SALT_SIZE then (false, cr)
  else if nDerivationMethod = 0 then
    match readCompactSize vchOtherDerivationParameters with
    | none => (false, cr)
    | some memlimit =>
      let chOut := cryptoPwhash (WALLET_CRYPTO_KEY_SIZE + WALLET_CRYPTO_KEY_SIZE) strKeyData chSalt nRounds memlimit
      (true, ⟨chOut.take WALLET_CRYPTO_KEY_SIZE, chOut.drop WALLET_CRYPTO_KEY_SIZE, true⟩)
  else (true, { cr with fKeySet := true })

/-- CCrypter::SetKey: rejects key or IV of the wrong length, otherwise
installs them and marks the key as set. -/
def setKey (cr : Crypter) (chNewKey chNewIV : List Nat) : Bool × Crypter :=
  if chNewKey.length ≠ WALLET_CRYPTO_KEY_SIZE || chNewIV.length ≠ WALLET_CRYPTO_KEY_SIZE then (false, cr)
  else (true, ⟨chNewKey, chNewIV, true⟩)

/-- CCrypter::Encrypt: fails when no key is set; otherwise the AEAD
ciphertext of the plaintext (length plaintext + MACBYTES). -/
def encrypt (cr : Crypter) (vchPlaintext : List Nat) : Bool × List Nat :=
  if cr.fKeySet = false then (false, [])
  else (true, secretboxEasy cr.chKey cr.chIV vchPlaintext)

/-- Outcome of CCrypter::Decrypt.  hugeAlloc records the byte count of
the plaintext buffer the C++ requests when nPLen = length − MACBYTES is
negative: the int is converted to size_t, so the request is for
2^64 + nPLen bytes (the construction throws, it never returns false). -/
inductive DecResult where
  | notReady : DecResult
  | hugeAlloc : Nat → DecResult
  | fail : DecResult
  | ok : List Nat → DecResult
deriving DecidableEq, Repr

/-- CCrypter::Decrypt: fails when no key is set; allocates a plaintext
buffer of nPLen = length − MACBYTES bytes (negative lengths become huge
size_t requests); then the AEAD open call decides failure or success. -/
def decrypt (cr : Crypter) (vchCiphertext : List Nat) : DecResult :=
  if cr.fKeySet = false then .notReady
  else if vchCiphertext.length < MACBYTES then
    .hugeAlloc (2 ^ 64 - (MACBYTES - vchCiphertext.length))
  else
    match openEasy cr.chKey cr.chIV vchCiphertext with
    | some pt => .ok pt
    | none => .fail

/-- EncryptSecret: a fresh cipher keyed with (master key, entry nonce),
then Encrypt; returns false when SetKey rejects the inputs. -/
def encryptSecret (vMasterKey vchPlaintext nIV : List Nat) : Bool × List Nat :=
  let r := setKey freshCrypter vMasterKey nIV
  if r.1 = false then (false, [])
  else encrypt r.2 vchPlaintext

/-- DecryptSecret: a fresh cipher keyed with (master key, entry nonce),
then Decrypt; a SetKey rejection is the same false return as an
authentication failure in the boolean C++ interface. -/
def decryptSecret (vMasterKey vchCiphertext nIV : List Nat) : DecResult :=
  let r := setKey freshCrypter vMasterKey nIV
  if r.1 = false then .fail
  else decrypt r.2 vchCiphertext

section RoundTrip

lemma streamBytes_involutive (key iv : List Nat) (i : Nat) (m : List Nat) :
    streamBytes key iv i (streamBytes key iv i m) = m := by
  induction m generalizing i with
  | nil => simp [streamBytes]
  | cons b bs ih =>
    simp [streamBytes, ih, Nat.xor_assoc, Nat.xor_self, Nat.xor_zero]

lemma streamBytes_length (key iv : List Nat) (i : Nat) (m : List Nat) :
    (streamBytes key iv i m).length = m.length := by
  induction m generalizing i with
  | nil => simp [streamBytes]
  | cons b bs ih => simp [streamBytes, ih]

lemma take_len_append (l₁ l₂ : List Nat) : (l₁ ++ l₂).take l₁.length = l₁ := by
  induction l₁ with
  | nil => simp
  | cons a l ih => simp [ih]

lemma drop_len_append (l₁ l₂ : List Nat) : (l₁ ++ l₂).drop l₁.length = l₂ := by
  induction l₁ with
  | nil => simp
  | cons a l ih => simp [ih]

lemma macOf_length (key iv body : List Nat) : (macOf key iv body).length = MACBYTES := by
  simp [macOf]

lemma secretboxEasy_length (key iv m : List Nat) :
    (secretboxEasy key iv m).length = m.length + MACBYTES := by
  simp [secretboxEasy, macOf_length, streamBytes_length, Nat.add_comm]

lemma openEasy_secretboxEasy (key iv m : List Nat) :
    openEasy key iv (secretboxEasy key iv m) = some m := by
  have htake : (secretboxEasy key iv m).take MACBYTES
      = macOf key iv (streamBytes key iv 0 m) := by
    have h := take_len_append (macOf key iv (streamBytes key iv 0 m)) (streamBytes key iv 0 m)
    rw [macOf_length] at h
    simp [secretboxEasy, h]
  have hdrop : (secretboxEasy key iv m).drop MACBYTES = streamBytes key iv 0 m := by
    have h := drop_len_append (macOf key iv (streamBytes key iv 0 m)) (streamBytes key iv 0 m)
    rw [macOf_length] at h
    simp [secretboxEasy, h]
  have hlen : ¬ (secretboxEasy key iv m).length < MACBYTES := by
    simp [secretboxEasy_length]
  simp [openEasy, hlen, htake, hdrop, streamBytes_involutive]

end RoundTrip

/-- Modelled from the spec: the hash digest of a public identity
(CPubKey::GetHash / libzcash::PaymentAddress::GetHash): a fixed 32-byte
digest used as the per-entry nonce. -/
def hashOf (x : Nat) : List Nat :=
  List.replicate WALLET_CRYPTO_KEY_SIZE (x + 9)

/-- Modelled from the spec: derivation of the public key value from a
32-byte transparent secret (CKey::GetPubKey / CKey::VerifyPubKey agree
on this map, external curve arithmetic). -/
def pubkeyOf (s : List Nat) : Nat :=
  s.foldl (fun a b => a * 2 + b + 3) 5

/-- Modelled from the spec: CPubKey::GetID, the key identifier digest of
a public key. -/
def getID (pub : Nat) : Nat := pub + 17

/-- Modelled from the spec: libzcash::SpendingKey::address(). -/
def addressOf (sk : Nat) : Nat := sk * 2 + 5

/-- Modelled from the spec: libzcash::SpendingKey::viewing_key(). -/
def viewingKeyOf (sk : Nat) : Nat := sk + 11

/-- Modelled from the spec: serialization of a spending key to its fixed
SerializedSpendingKeySize byte form (CSecureDataStream << sk). -/
def serializeSk (sk : Nat) : List Nat :=
  List.replicate (SerializedSpendingKeySize - 1) 7 ++ [sk]

/-- Modelled from the spec: deserialization of a spending key from its
serialized byte form (CSecureDataStream >> sk). -/
def deserializeSk (l : List Nat) : Nat := l.getLastD 0

/-- DecryptKey (file-static helper): decrypt the ciphertext under the
entry nonce hash of the public key, require a 32-byte secret, rebuild
the key and verify it against the stored public key.  A ciphertext
shorter than the tag makes the C++ plaintext allocation throw instead of
returning false; at this boolean layer that non-returning outcome is
conservatively folded into a failed decryption. -/
def decryptKeyB (vMasterKey vchCryptedSecret : List Nat) (vchPubKey : Nat) : Bool :=
  match decryptSecret vMasterKey vchCryptedSecret (hashOf vchPubKey) with
  | .ok s => decide (s.length = 32) && decide (pubkeyOf s = vchPubKey)
  | _ => false

/-- DecryptSpendingKey (file-static helper): decrypt under the nonce
hash of the payment address, require the serialized spending-key size,
deserialize and check the recomputed address.  The same folding of the
short-ciphertext allocation outcome applies as for decryptKeyB. -/
def decryptSpendingKeyB (vMasterKey vchCryptedSecret : List Nat) (address : Nat) : Bool :=
  match decryptSecret vMasterKey vchCryptedSecret (hashOf address) with
  | .ok s => decide (s.length = SerializedSpendingKeySize) && decide (addressOf (deserializeSk s) = address)
  | _ => false

/-- Association-list lookup standing for std::map::find. -/
def lookupA {α : Type} (k : Nat) : List (Nat × α) → Option α
  | [] => none
  | (k', v) :: rest => if k = k' then some v else lookupA k rest

/-- Association-list update standing for std::map::operator[] assignment:
replaces the binding when present, otherwise appends it. -/
def insertA {α : Type} (k : Nat) (v : α) : List (Nat × α) → List (Nat × α)
  | [] => [(k, v)]
  | (k', v') :: rest => if k = k' then (k, v) :: rest else (k', v') :: insertA k v rest

/-- Association-list insert standing for std::map::insert: keeps the
existing binding when present. -/
def insertIfAbsent {α : Type} (k : Nat) (v : α) (l : List (Nat × α)) : List (Nat × α) :=
  match lookupA k l with
  | some _ => l
  | none => l ++ [(k, v)]

/-- CCryptoKeyStore state: the encrypted-mode flag, the in-memory master
key, the plaintext maps (inherited from CBasicKeyStore), the encrypted
maps and the note-decryptor cache, and the thorough-decryption flag. -/
structure KeyStore where
  fUseCrypto : Bool
  vMasterKey : List Nat
  mapKeys : List (Nat × List Nat)
  mapSpendingKeys : List (Nat × Nat)
  mapCryptedKeys : List (Nat × (Nat × List Nat))
  mapCryptedSpendingKeys : List (Nat × List Nat)
  mapNoteDecryptors : List (Nat × Nat)
  fDecryptionThoroughlyChecked : Bool
deriving DecidableEq, Repr

/-- CKeyStore::IsCrypted. -/
def isCrypted (st : KeyStore) : Bool := st.fUseCrypto

/-- Modelled from the spec: CCryptoKeyStore::IsLocked (crypter.h, not
under src/): locked when encrypted and no master key is held. -/
def isLocked (st : KeyStore) : Bool := st.fUseCrypto && st.vMasterKey.isEmpty

/-- CCryptoKeyStore::SetCrypted: success without change when already
encrypted; refuses when a plaintext map is non-empty; otherwise sets the
encrypted-mode flag. -/
def setCrypted (st : KeyStore) : Bool × KeyStore :=
  if st.fUseCrypto then (true, st)
  else if st.mapKeys.isEmpty && st.mapSpendingKeys.isEmpty then
    (true, { st with fUseCrypto := true })
  else (false, st)

/-- CCryptoKeyStore::Lock: requires SetCrypted, clears the master key,
then notifies observers.  The third component records whether the
status-changed notification was emitted. -/
def lock (st : KeyStore) : Bool × KeyStore × Bool :=
  match setCrypted st with
  | (false, st') => (false, st', false)
  | (true, st') => (true, { st' with vMasterKey := [] }, true)

/-- Per-loop scan state of CCryptoKeyStore::Unlock: the keyPass and
keyFail flags together with the verdicts of the decryptions actually
attempted, in order. -/
structure ScanOut where
  pass : Bool
  fail : Bool
  attempts : List Bool
deriving DecidableEq, Repr

/-- One Unlock loop: walk the encrypted entries; a failed decryption
sets keyFail and breaks; a successful one sets keyPass and breaks only
when the thorough flag is already set. -/
def scanLoop {α : Type} (thorough : Bool) (verdict : α → Bool) : List α → Bool → ScanOut
  | [], keyPass => ⟨keyPass, false, []⟩
  | e :: es, keyPass =>
    if verdict e then
      if thorough then ⟨true, false, [true]⟩
      else
        let r := scanLoop thorough verdict es true
        ⟨r.pass, r.fail, true :: r.attempts⟩
    else ⟨keyPass, true, [false]⟩

/-- Both Unlock loops in sequence: the transparent-key loop feeds its
keyPass into the spending-key loop; keyFail is the disjunction. -/
def unlockScan (st : KeyStore) (vMasterKeyIn : List Nat) : ScanOut :=
  let r1 := scanLoop st.fDecryptionThoroughlyChecked
    (fun e => decryptKeyB vMasterKeyIn e.2.2 e.2.1) st.mapCryptedKeys false
  let r2 := scanLoop st.fDecryptionThoroughlyChecked
    (fun e => decryptSpendingKeyB vMasterKeyIn e.2 e.1) st.mapCryptedSpendingKeys r1.pass
  ⟨r2.pass, r1.fail || r2.fail, r1.attempts ++ r2.attempts⟩

/-- Outcome of CCryptoKeyStore::Unlock: the SetCrypted failure, the
assert(false) abort on mixed verdicts, the wrong-passphrase false
return, or success. -/
inductive UnlockRes where
  | notEncrypted : UnlockRes
  | corrupted : UnlockRes
  | wrongPassphrase : UnlockRes
  | ok : UnlockRes
deriving DecidableEq, Repr

/-- Body of Unlock after SetCrypted has succeeded: run both scans, abort
on mixed verdicts, fail when nothing passed, otherwise adopt the master
key and set the thorough flag, notifying observers. -/
def unlockBody (st : KeyStore) (vMasterKeyIn : List Nat) : UnlockRes × KeyStore × Bool :=
  if (unlockScan st vMasterKeyIn).pass && (unlockScan st vMasterKeyIn).fail then
    (.corrupted, st, false)
  else if (unlockScan st vMasterKeyIn).fail || !(unlockScan st vMasterKeyIn).pass then
    (.wrongPassphrase, st, false)
  else (.ok, { st with vMasterKey := vMasterKeyIn, fDecryptionThoroughlyChecked := true }, true)

/-- CCryptoKeyStore::Unlock: SetCrypted first (flipping the mode flag on
an empty plain store), then the scan-and-decide body. -/
def unlock (st : KeyStore) (vMasterKeyIn : List Nat) : UnlockRes × KeyStore × Bool :=
  if st.fUseCrypto then unlockBody st vMasterKeyIn
  else if st.mapKeys.isEmpty && st.mapSpendingKeys.isEmpty then
    unlockBody { st with fUseCrypto := true } vMasterKeyIn
  else (.notEncrypted, st, false)

/-- Modelled from the spec: CBasicKeyStore::AddKeyPubKey (keystore.cpp,
not under src/): plain-mode insertion into the plaintext map. -/
def basicAddKeyPubKey (st : KeyStore) (key : List Nat) (pubkey : Nat) : Bool × KeyStore :=
  (true, { st with mapKeys := insertA (getID pubkey) key st.mapKeys })

/-- CCryptoKeyStore::AddCryptedKey: requires SetCrypted, then stores the
(public key, ciphertext) record under the key identifier. -/
def addCryptedKey (st : KeyStore) (vchPubKey : Nat) (vchCryptedSecret : List Nat) : Bool × KeyStore :=
  match setCrypted st with
  | (false, st') => (false, st')
  | (true, st') =>
    (true, { st' with mapCryptedKeys := insertA (getID vchPubKey) (vchPubKey, vchCryptedSecret) st'.mapCryptedKeys })

/-- CCryptoKeyStore::AddKeyPubKey: plain-mode delegation to the basic
store; otherwise requires an unlocked store, encrypts the secret under
the nonce hash of the public key and stores the encrypted record. -/
def addKeyPubKey (st : KeyStore) (key : List Nat) (pubkey : Nat) : Bool × KeyStore :=
  if !isCrypted st then basicAddKeyPubKey st key pubkey
  else if isLocked st then (false, st)
  else
    let r := encryptSecret st.vMasterKey key (hashOf pubkey)
    if r.1 = false then (false, st)
    else addCryptedKey st pubkey r.2

/-- Modelled from the spec: CBasicKeyStore::AddSpendingKey (keystore.cpp,
not under src/): plain-mode insertion into the plaintext map. -/
def basicAddSpendingKey (st : KeyStore) (sk : Nat) : Bool × KeyStore :=
  (true, { st with mapSpendingKeys := insertA (addressOf sk) sk st.mapSpendingKeys })

/-- CCryptoKeyStore::AddCryptedSpendingKey: requires SetCrypted, stores
the ciphertext under the address and caches the note decryptor. -/
def addCryptedSpendingKey (st : KeyStore) (address vk : Nat) (vchCryptedSecret : List Nat) : Bool × KeyStore :=
  match setCrypted st with
  | (false, st') => (false, st')
  | (true, st') =>
    (true, { st' with
      mapCryptedSpendingKeys := insertA address vchCryptedSecret st'.mapCryptedSpendingKeys,
      mapNoteDecryptors := insertIfAbsent address vk st'.mapNoteDecryptors })

/-- CCryptoKeyStore::AddSpendingKey: plain-mode delegation to the basic
store; otherwise requires an unlocked store, serializes and encrypts the
spending key under the nonce hash of its address. -/
def addSpendingKey (st : KeyStore) (sk : Nat) : Bool × KeyStore :=
  if !isCrypted st then basicAddSpendingKey st sk
  else if isLocked st then (false, st)
  else
    let address := addressOf sk
    let r := encryptSecret st.vMasterKey (serializeSk sk) (hashOf address)
    if r.1 = false then (false, st)
    else addCryptedSpendingKey st address (viewingKeyOf sk) r.2

/-- Outcome of CCryptoKeyStore::GetKey, separating the distinct paths on
which the C++ returns false: a missing record, a decryption that fails
or yields a wrong-sized secret, and a reconstructed public key that does
not match the stored one. -/
inductive GetKeyRes where
  | notFound : GetKeyRes
  | decFailed : GetKeyRes
  | mismatch : GetKeyRes
  | ok : List Nat → GetKeyRes
deriving DecidableEq, Repr

/-- CCryptoKeyStore::GetKey: plain-mode lookup in the plaintext map;
otherwise find the encrypted record and run DecryptKey on it with the
entry nonce hash of the stored public key. -/
def getKey (st : KeyStore) (address : Nat) : GetKeyRes :=
  if !isCrypted st then
    match lookupA address st.mapKeys with
    | some k => .ok k
    | none => .notFound
  else
    match lookupA address st.mapCryptedKeys with
    | none => .notFound
    | some (vchPubKey, vchCryptedSecret) =>
      match decryptSecret st.vMasterKey vchCryptedSecret (hashOf vchPubKey) with
      | .ok s =>
        if s.length = 32 then
          if pubkeyOf s = vchPubKey then .ok s else .mismatch
        else .decFailed
      | _ => .decFailed

/-- CCryptoKeyStore::GetPubKey: the stored public key of the plain or
encrypted record, never needing the master key. -/
def getPubKey (st : KeyStore) (address : Nat) : Option Nat :=
  if !isCrypted st then
    match lookupA address st.mapKeys with
    | some k => some (pubkeyOf k)
    | none => none
  else
    match lookupA address st.mapCryptedKeys with
    | some (vchPubKey, _) => some vchPubKey
    | none => none

/-- CCryptoKeyStore::GetSpendingKey: plain-mode lookup; otherwise find
the ciphertext and run DecryptSpendingKey under the address nonce. -/
def getSpendingKey (st : KeyStore) (address : Nat) : Bool :=
  if !isCrypted st then (lookupA address st.mapSpendingKeys).isSome
  else
    match lookupA address st.mapCryptedSpendingKeys with
    | some vchCryptedSecret => decryptSpendingKeyB st.vMasterKey vchCryptedSecret address
    | none => false

/-- Transparent-key loop of CCryptoKeyStore::EncryptKeys: encrypt each
plaintext key under the new master key and insert the encrypted record,
stopping with failure (partial state kept) when a step fails. -/
def encryptKeysLoop1 (vMasterKeyIn : List Nat) : List (Nat × List Nat) → KeyStore → Bool × KeyStore
  | [], st => (true, st)
  | (_, key) :: rest, st =>
    let vchPubKey := pubkeyOf key
    let r := encryptSecret vMasterKeyIn key (hashOf vchPubKey)
    if r.1 = false then (false, st)
    else
      match addCryptedKey st vchPubKey r.2 with
      | (false, st') => (false, st')
      | (true, st') => encryptKeysLoop1 vMasterKeyIn rest st'

/-- Spending-key loop of CCryptoKeyStore::EncryptKeys. -/
def encryptKeysLoop2 (vMasterKeyIn : List Nat) : List (Nat × Nat) → KeyStore → Bool × KeyStore
  | [], st => (true, st)
  | (_, sk) :: rest, st =>
    let address := addressOf sk
    let r := encryptSecret vMasterKeyIn (serializeSk sk) (hashOf address)
    if r.1 = false then (false, st)
    else
      match addCryptedSpendingKey st address (viewingKeyOf sk) r.2 with
      | (false, st') => (false, st')
      | (true, st') => encryptKeysLoop2 vMasterKeyIn rest st'

/-- CCryptoKeyStore::EncryptKeys: refuses when any encrypted record
exists or the store is already encrypted; otherwise sets the mode flag,
migrates the transparent keys and clears their plaintext map, then the
spending keys likewise. -/
def encryptKeys (st : KeyStore) (vMasterKeyIn : List Nat) : Bool × KeyStore :=
  if !st.mapCryptedKeys.isEmpty || isCrypted st then (false, st)
  else
    let st1 := { st with fUseCrypto := true }
    match encryptKeysLoop1 vMasterKeyIn st1.mapKeys st1 with
    | (false, st') => (false, st')
    | (true, st2) =>
      let st3 := { st2 with mapKeys := [] }
      match encryptKeysLoop2 vMasterKeyIn st3.mapSpendingKeys st3 with
      | (false, st') => (false, st')
      | (true, st4) => (true, { st4 with mapSpendingKeys := [] })

/-- The public operations of the store, used to state that no operation
ever resets the encrypted-mode flag. -/
inductive Op where
  | opSetCrypted : Op
  | opLock : Op
  | opUnlock : List Nat → Op
  | opAddKeyPubKey : List Nat → Nat → Op
  | opAddCryptedKey : Nat → List Nat → Op
  | opAddSpendingKey : Nat → Op
  | opAddCryptedSpendingKey : Nat → Nat → List Nat → Op
  | opEncryptKeys : List Nat → Op
  | opGetKey : Nat → Op
  | opGetPubKey : Nat → Op
  | opGetSpendingKey : Nat → Op
deriving DecidableEq, Repr

/-- Run one operation, returning its boolean result and the new state
(query operations leave the state unchanged). -/
def runOp (op : Op) (st : KeyStore) : Bool × KeyStore :=
  match op with
  | .opSetCrypted => setCrypted st
  | .opLock => let r := lock st; (r.1, r.2.1)
  | .opUnlock mk =>
    let r := unlock st mk
    (decide (r.1 = UnlockRes.ok), r.2.1)
  | .opAddKeyPubKey k p => addKeyPubKey st k p
  | .opAddCryptedKey p ct => addCryptedKey st p ct
  | .opAddSpendingKey sk => addSpendingKey st sk
  | .opAddCryptedSpendingKey a vk ct => addCryptedSpendingKey st a vk ct
  | .opEncryptKeys mk => encryptKeys st mk
  | .opGetKey a => (decide (getKey st a ≠ GetKeyRes.notFound), st)
  | .opGetPubKey a => ((getPubKey st a).isSome, st)
  | .opGetSpendingKey a => (getSpendingKey st a, st)

/-- Verdict list truncated at (and including) the first failure: the
decryptions an exhaustive Unlock pass actually attempts. -/
def untilFirstFalse : List Bool → List Bool
  | [] => []
  | b :: bs => if b then b :: untilFirstFalse bs else [b]

section ScanLemmas

lemma hashOf_length (x : Nat) : (hashOf x).length = 32 := by
  simp [hashOf, WALLET_CRYPTO_KEY_SIZE]

lemma scanLoop_fail_iff {α : Type} (th : Bool) (v : α → Bool) (es : List α) (kp : Bool) :
    (scanLoop th v es kp).fail = true ↔ false ∈ (scanLoop th v es kp).attempts := by
  induction es generalizing kp with
  | nil => simp [scanLoop]
  | cons e es ih =>
    by_cases hv : v e
    · cases th with
      | true => simp [scanLoop, hv]
      | false => simp [scanLoop, hv, ih]
    · simp [scanLoop, hv]

lemma scanLoop_pass_iff {α : Type} (th : Bool) (v : α → Bool) (es : List α) (kp : Bool) :
    (scanLoop th v es kp).pass = true ↔ (kp = true ∨ true ∈ (scanLoop th v es kp).attempts) := by
  induction es generalizing kp with
  | nil => simp [scanLoop]
  | cons e es ih =>
    by_cases hv : v e
    · cases th with
      | true => simp [scanLoop, hv]
      | false => simp [scanLoop, hv, ih]
    · simp [scanLoop, hv]

lemma unlockScan_fail_iff (st : KeyStore) (mk : List Nat) :
    (unlockScan st mk).fail = true ↔ false ∈ (unlockScan st mk).attempts := by
  simp only [unlockScan, List.mem_append, Bool.or_eq_true]
  rw [scanLoop_fail_iff, scanLoop_fail_iff]

lemma unlockScan_pass_iff (st : KeyStore) (mk : List Nat) :
    (unlockScan st mk).pass = true ↔ true ∈ (unlockScan st mk).attempts := by
  simp only [unlockScan, List.mem_append]
  rw [scanLoop_pass_iff]
  rw [scanLoop_pass_iff]
  simp

lemma scanLoop_attempts_thorough {α : Type} (v : α → Bool) (es : List α) (kp : Bool) :
    (scanLoop true v es kp).attempts = (es.map v).take 1 := by
  cases es with
  | nil => simp [scanLoop]
  | cons e es =>
    by_cases hv : v e
    · simp [scanLoop, hv]
    · simp [scanLoop, hv]

lemma scanLoop_attempts_exhaustive {α : Type} (v : α → Bool) (es : List α) (kp : Bool) :
    (scanLoop false v es kp).attempts = untilFirstFalse (es.map v) := by
  induction es generalizing kp with
  | nil => simp [scanLoop, untilFirstFalse]
  | cons e es ih =>
    by_cases hv : v e
    · simp [scanLoop, hv, untilFirstFalse, ih]
    · simp [scanLoop, hv, untilFirstFalse]

end ScanLemmas

section CipherLemmas

lemma openEasy_some_length (key iv c pt : List Nat) (h : openEasy key iv c = some pt) :
    pt.length = c.length - MACBYTES := by
  unfold openEasy at h
  by_cases hlen : c.length < MACBYTES
  · simp [hlen] at h
  · by_cases htag : c.take MACBYTES = macOf key iv (c.drop MACBYTES)
    · simp [hlen, htag] at h
      rw [← h, streamBytes_length, List.length_drop]
    · simp [hlen, htag] at h

lemma decrypt_of_secretboxEasy (k iv m : List Nat) :
    decrypt ⟨k, iv, true⟩ (secretboxEasy k iv m) = DecResult.ok m := by
  have hlen : ¬ (secretboxEasy k iv m).length < MACBYTES := by
    simp [secretboxEasy_length]
  simp [decrypt, hlen, openEasy_secretboxEasy]

lemma decryptSecret_encryptSecret (mk m iv : List Nat)
    (hmk : mk.length = 32) (hiv : iv.length = 32) :
    decryptSecret mk (encryptSecret mk m iv).2 iv = DecResult.ok m := by
  have hset : setKey freshCrypter mk iv = (true, ⟨mk, iv, true⟩) := by
    simp [setKey, hmk, hiv, WALLET_CRYPTO_KEY_SIZE]
  simp [encryptSecret, decryptSecret, hset, encrypt, decrypt_of_secretboxEasy]

end CipherLemmas

section StoreLemmas

lemma setCrypted_of_crypted (st : KeyStore) (h : st.fUseCrypto = true) :
    setCrypted st = (true, st) := by
  simp [setCrypted, h]

lemma addCryptedKey_of_crypted (st : KeyStore) (p : Nat) (ct : List Nat)
    (h : st.fUseCrypto = true) :
    addCryptedKey st p ct =
      (true, { st with mapCryptedKeys := insertA (getID p) (p, ct) st.mapCryptedKeys }) := by
  simp [addCryptedKey, setCrypted_of_crypted st h]

lemma addCryptedSpendingKey_of_crypted (st : KeyStore) (a vk : Nat) (ct : List Nat)
    (h : st.fUseCrypto = true) :
    addCryptedSpendingKey st a vk ct =
      (true, { st with
        mapCryptedSpendingKeys := insertA a ct st.mapCryptedSpendingKeys,
        mapNoteDecryptors := insertIfAbsent a vk st.mapNoteDecryptors }) := by
  simp [addCryptedSpendingKey, setCrypted_of_crypted st h]

lemma unlockBody_fUseCrypto (st : KeyStore) (mk : List Nat) :
    (unlockBody st mk).2.1.fUseCrypto = st.fUseCrypto := by
  unfold unlockBody
  split
  · rfl
  · split
    · rfl
    · rfl

lemma addKeyPubKey_crypted (st : KeyStore) (k : List Nat) (p : Nat)
    (h : st.fUseCrypto = true) :
    (addKeyPubKey st k p).2.fUseCrypto = true
    ∧ (addKeyPubKey st k p).2.mapKeys = st.mapKeys
    ∧ (addKeyPubKey st k p).2.mapSpendingKeys = st.mapSpendingKeys := by
  unfold addKeyPubKey
  simp only [isCrypted, h, Bool.not_true, Bool.false_eq_true, if_false]
  by_cases hl : isLocked st
  · simp [hl, h]
  · by_cases he : (encryptSecret st.vMasterKey k (hashOf p)).1 = false
    · simp [hl, he, h]
    · simp [hl, he, addCryptedKey_of_crypted st p _ h, h]

lemma addSpendingKey_crypted (st : KeyStore) (sk : Nat)
    (h : st.fUseCrypto = true) :
    (addSpendingKey st sk).2.fUseCrypto = true
    ∧ (addSpendingKey st sk).2.mapKeys = st.mapKeys
    ∧ (addSpendingKey st sk).2.mapSpendingKeys = st.mapSpendingKeys := by
  unfold addSpendingKey
  simp only [isCrypted, h, Bool.not_true, Bool.false_eq_true, if_false]
  by_cases hl : isLocked st
  · simp [hl, h]
  · by_cases he : (encryptSecret st.vMasterKey (serializeSk sk) (hashOf (addressOf sk))).1 = false
    · simp [hl, he, h]
    · simp [hl, he, addCryptedSpendingKey_of_crypted st (addressOf sk) (viewingKeyOf sk) _ h, h]

lemma runOp_fUseCrypto (op : Op) (st : KeyStore) (h : st.fUseCrypto = true) :
    (runOp op st).2.fUseCrypto = true := by
  cases op with
  | opSetCrypted => simp [runOp, setCrypted_of_crypted st h, h]
  | opLock => simp [runOp, lock, setCrypted_of_crypted st h, h]
  | opUnlock mk =>
    simp only [runOp, unlock, h, if_true]
    rw [unlockBody_fUseCrypto]
    exact h
  | opAddKeyPubKey k p => exact (addKeyPubKey_crypted st k p h).1
  | opAddCryptedKey p ct => simp [runOp, addCryptedKey_of_crypted st p ct h, h]
  | opAddSpendingKey sk => exact (addSpendingKey_crypted st sk h).1
  | opAddCryptedSpendingKey a vk ct =>
    simp [runOp, addCryptedSpendingKey_of_crypted st a vk ct h, h]
  | opEncryptKeys mk => simp [runOp, encryptKeys, isCrypted, h]
  | opGetKey a => simpa [runOp] using h
  | opGetPubKey a => simpa [runOp] using h
  | opGetSpendingKey a => simpa [runOp] using h

end StoreLemmas

section ConcreteFixtures

/-- A concrete 32-byte master key. -/
def mkW : List Nat := List.replicate 32 4

/-- A concrete 32-byte transparent secret key. -/
def skW : List Nat := List.replicate 32 2

/-- The public key of skW. -/
def pubW : Nat := pubkeyOf skW

/-- The ciphertext of skW under mkW with the entry nonce of pubW. -/
def ctW : List Nat := (encryptSecret mkW skW (hashOf pubW)).2

/-- A ciphertext that decrypts under no key (its tag never verifies). -/
def badCt : List Nat := List.replicate 16 0

/-- An encrypted, unlocked store holding the one valid record for skW. -/
def stW : KeyStore := ⟨true, mkW, [], [], [(getID pubW, (pubW, ctW))], [], [], false⟩

/-- An encrypted locked store whose thorough-check flag is already set,
holding a record that decrypts under mkW followed by one that does not. -/
def stC2 : KeyStore :=
  ⟨true, [], [], [], [(getID pubW, (pubW, ctW)), (getID 999, (999, badCt))], [], [], true⟩

/-- An encrypted locked store with the thorough-check flag still unset,
holding a record that decrypts under mkW followed by one that does not. -/
def stC3 : KeyStore :=
  ⟨true, [], [], [], [(getID pubW, (pubW, ctW)), (getID 999, (999, badCt))], [], [], false⟩

/-- An encrypted locked store holding a single undecryptable record. -/
def stC7 : KeyStore := ⟨true, [], [], [], [(getID 999, (999, badCt))], [], [], false⟩

/-- A cipher readied with a concrete all-zero (key, nonce) pair. -/
def crC4 : Crypter := (setKey freshCrypter (List.replicate 32 0) (List.replicate 32 0)).2

/-- A plain store with empty plaintext maps. -/
def stPlainEmpty : KeyStore := ⟨false, [], [], [], [], [], [], false⟩

/-- An encrypted locked store with no records at all. -/
def stEnc : KeyStore := ⟨true, [], [], [], [], [], [], false⟩

end ConcreteFixtures

/-- C1: the claim says a call to SetKeyFromPassphrase with a
derivation-method identifier other than 0 (rounds at least 1, salt of
the fixed size) fails with UnsupportedMethod and leaves the cipher not
ready.  The code instead skips the entire derivation block for a
non-zero method identifier and still returns success with fKeySet set,
leaving the key and IV buffers underived: evaluated here at
method identifier 1, rounds 1, an 8-byte salt and a fresh cipher. -/
theorem c1_unsupported_method_still_succeeds :
    (setKeyFromPassphrase freshCrypter [1, 2, 3] (List.replicate 8 0) 1 1 []).1 = true
    ∧ (setKeyFromPassphrase freshCrypter [1, 2, 3] (List.replicate 8 0) 1 1 []).2.fKeySet = true
    ∧ (setKeyFromPassphrase freshCrypter [1, 2, 3] (List.replicate 8 0) 1 1 []).2.chKey
        = freshCrypter.chKey := by
  refine ⟨?_, ?_, ?_⟩ <;> decide

/-- C2 counterexample: the claim says Unlock short-circuits unless the
thorough flag is set, and that once set every unlock fully verifies all
entries.  Here the flag is set, the store holds a record that decrypts
under the candidate key followed by one that does not, and Unlock still
succeeds after attempting only the first record — under the claim the
full verification would have met the failing record and aborted. -/
theorem c2_counterexample :
    stC2.fDecryptionThoroughlyChecked = true
    ∧ stC2.mapCryptedKeys.map (fun e => decryptKeyB mkW e.2.2 e.2.1) = [true, false]
    ∧ (unlock stC2 mkW).1 = UnlockRes.ok
    ∧ (unlockScan stC2 mkW).attempts = [true] := by
  refine ⟨rfl, ?_, ?_, ?_⟩ <;> decide

lemma unlockBody_ok_thorough (st : KeyStore) (mk : List Nat)
    (hok : (unlockBody st mk).1 = UnlockRes.ok) :
    (unlockBody st mk).2.1.fDecryptionThoroughlyChecked = true := by
  unfold unlockBody at hok ⊢
  by_cases h1 : ((unlockScan st mk).pass && (unlockScan st mk).fail) = true
  · rw [if_pos h1] at hok
    simp at hok
  · rw [if_neg h1] at hok ⊢
    by_cases h2 : ((unlockScan st mk).fail || !(unlockScan st mk).pass) = true
    · rw [if_pos h2] at hok
      simp at hok
    · rw [if_neg h2]

/-- C2 (amended): Unlock short-circuits after the first per-entry
verdict of each kind precisely when the thorough-check flag is already
set; when the flag is unset it attempts every entry of each kind up to
and including the first failure; and any successful Unlock sets the
flag, a one-way downgrade from exhaustive checking to spot-checking. -/
theorem c2_thorough_flag_semantics (st : KeyStore) (mk : List Nat) :
    (st.fDecryptionThoroughlyChecked = true →
      (unlockScan st mk).attempts =
        (st.mapCryptedKeys.map (fun e => decryptKeyB mk e.2.2 e.2.1)).take 1
        ++ (st.mapCryptedSpendingKeys.map (fun e => decryptSpendingKeyB mk e.2 e.1)).take 1)
    ∧ (st.fDecryptionThoroughlyChecked = false →
      (unlockScan st mk).attempts =
        untilFirstFalse (st.mapCryptedKeys.map (fun e => decryptKeyB mk e.2.2 e.2.1))
        ++ untilFirstFalse (st.mapCryptedSpendingKeys.map (fun e => decryptSpendingKeyB mk e.2 e.1)))
    ∧ ((unlock st mk).1 = UnlockRes.ok → (unlock st mk).2.1.fDecryptionThoroughlyChecked = true) := by
  refine ⟨?_, ?_, ?_⟩
  · intro hth
    simp [unlockScan, hth, scanLoop_attempts_thorough]
  · intro hth
    simp [unlockScan, hth, scanLoop_attempts_exhaustive]
  · intro hok
    unfold unlock at hok ⊢
    by_cases hc : st.fUseCrypto
    · simp only [hc, if_true] at hok ⊢
      exact unlockBody_ok_thorough st mk hok
    · by_cases hempty : st.mapKeys.isEmpty && st.mapSpendingKeys.isEmpty
      · simp only [hc, hempty, Bool.false_eq_true, if_false, if_true] at hok ⊢
        exact unlockBody_ok_thorough _ mk hok
      · simp [hc, hempty] at hok

/-- C2 witness for the amended claim: at the concrete thorough-flagged
two-entry store, the attempted verdicts are exactly the first verdict of
each kind. -/
theorem c2_thorough_flag_semantics_witness :
    (unlockScan stC2 mkW).attempts =
      (stC2.mapCryptedKeys.map (fun e => decryptKeyB mkW e.2.2 e.2.1)).take 1
      ++ (stC2.mapCryptedSpendingKeys.map (fun e => decryptSpendingKeyB mkW e.2 e.1)).take 1 :=
  (c2_thorough_flag_semantics stC2 mkW).1 rfl

/-- C3: during Unlock on an encrypted store, if the attempted per-entry
decryptions contain at least one success and at least one failure, the
scan's keyPass and keyFail flags are both set and Unlock hits the
assert(false) corruption abort; in particular the candidate master key
is never adopted (the stored master key, and the rest of the state, are
untouched). -/
theorem c3_mixed_verdicts_abort (st : KeyStore) (mk : List Nat)
    (hc : st.fUseCrypto = true)
    (hp : true ∈ (unlockScan st mk).attempts)
    (hf : false ∈ (unlockScan st mk).attempts) :
    unlock st mk = (UnlockRes.corrupted, st, false) := by
  have hpass : (unlockScan st mk).pass = true := (unlockScan_pass_iff st mk).2 hp
  have hfail : (unlockScan st mk).fail = true := (unlockScan_fail_iff st mk).2 hf
  simp [unlock, hc, unlockBody, hpass, hfail]

/-- C3 witness: the concrete store whose transparent records decrypt to
the verdicts true then false makes Unlock abort with corruption and
leave the state unchanged. -/
theorem c3_mixed_verdicts_abort_witness :
    unlock stC3 mkW = (UnlockRes.corrupted, stC3, false) :=
  c3_mixed_verdicts_abort stC3 mkW rfl (by decide) (by decide)

/-- C4 counterexample: the claim says Decrypt on a ready cipher with a
ciphertext shorter than the tag fails cleanly with InvalidInput and
never allocates a negative-sized buffer.  On the empty ciphertext the
code instead computes the plaintext length as the int −16 and requests a
buffer of that value converted to size_t, 2^64 − 16 bytes: not the
ordinary false return of an authentication failure. -/
theorem c4_counterexample :
    crC4.fKeySet = true
    ∧ decrypt crC4 [] = DecResult.hugeAlloc (2 ^ 64 - 16)
    ∧ decrypt crC4 [] ≠ DecResult.fail := by
  refine ⟨rfl, by decide, by decide⟩

/-- C4 (amended): on a ready cipher, a ciphertext shorter than the tag
makes Decrypt compute the negative plaintext length, length − MACBYTES,
and request a buffer of 2^64 + (length − MACBYTES) bytes (there is no
clean InvalidInput path); on success Decrypt returns a plaintext of
exactly ciphertext length − tag length bytes. -/
theorem c4_short_ciphertext_allocation (cr : Crypter) (ct pt : List Nat)
    (h : cr.fKeySet = true) :
    (ct.length < MACBYTES →
      decrypt cr ct = DecResult.hugeAlloc (2 ^ 64 - (MACBYTES - ct.length)))
    ∧ (decrypt cr ct = DecResult.ok pt → pt.length = ct.length - MACBYTES) := by
  constructor
  · intro hlt
    simp [decrypt, h, hlt]
  · intro hok
    unfold decrypt at hok
    rw [h] at hok
    simp only [Bool.true_eq_false, if_false] at hok
    by_cases hlt : ct.length < MACBYTES
    · rw [if_pos hlt] at hok
      exact absurd hok (by simp)
    · rw [if_neg hlt] at hok
      cases heq : openEasy cr.chKey cr.chIV ct with
      | none => rw [heq] at hok; exact absurd hok (by simp)
      | some pt' =>
        rw [heq] at hok
        have hpt : pt' = pt := by simpa using hok
        subst hpt
        exact openEasy_some_length cr.chKey cr.chIV ct pt' heq

/-- C4 witness for the amended claim: a concrete 3-byte ciphertext on
the ready cipher yields the huge allocation request of 2^64 − 13 bytes. -/
theorem c4_short_ciphertext_allocation_witness :
    decrypt crC4 [5, 6, 7] = DecResult.hugeAlloc (2 ^ 64 - (MACBYTES - [5, 6, 7].length)) :=
  (c4_short_ciphertext_allocation crC4 [5, 6, 7] [] rfl).1 (by decide)

/-- C5: SetCrypted returns success without changing state when the
store is already encrypted; on a plain store with both plaintext maps
empty it sets the encrypted-mode flag and succeeds; on a plain store
with a plaintext entry in either map it fails and the state, in
particular the mode flag, is unchanged. -/
theorem c5_setCrypted_cases (st : KeyStore) :
    (st.fUseCrypto = true → setCrypted st = (true, st))
    ∧ (st.fUseCrypto = false → st.mapKeys = [] → st.mapSpendingKeys = [] →
        setCrypted st = (true, { st with fUseCrypto := true }))
    ∧ (st.fUseCrypto = false → ¬(st.mapKeys = [] ∧ st.mapSpendingKeys = []) →
        setCrypted st = (false, st)) := by
  refine ⟨?_, ?_, ?_⟩
  · intro h
    simp [setCrypted, h]
  · intro h h1 h2
    simp [setCrypted, h, h1, h2]
  · intro h hne
    have : ¬(st.mapKeys.isEmpty && st.mapSpendingKeys.isEmpty) = true := by
      simp only [Bool.and_eq_true, List.isEmpty_iff]
      exact hne
    simp [setCrypted, h, this]

/-- C5 witness: on the concrete empty plain store, SetCrypted succeeds
and sets the encrypted-mode flag. -/
theorem c5_setCrypted_cases_witness :
    setCrypted stPlainEmpty = (true, { stPlainEmpty with fUseCrypto := true }) :=
  (c5_setCrypted_cases stPlainEmpty).2.1 rfl rfl rfl

/-- C6: once the store is in encrypted mode, no operation resets the
encrypted-mode flag; AddKeyPubKey and AddSpendingKey leave both
plaintext maps untouched (each either inserts an encrypted record or
fails); and EncryptKeys always fails. -/
theorem c6_mode_monotonic (st : KeyStore) (op : Op) (k : List Nat) (p sk : Nat)
    (mk : List Nat) (h : st.fUseCrypto = true) :
    (runOp op st).2.fUseCrypto = true
    ∧ (addKeyPubKey st k p).2.mapKeys = st.mapKeys
    ∧ (addKeyPubKey st k p).2.mapSpendingKeys = st.mapSpendingKeys
    ∧ (addSpendingKey st sk).2.mapKeys = st.mapKeys
    ∧ (addSpendingKey st sk).2.mapSpendingKeys = st.mapSpendingKeys
    ∧ (encryptKeys st mk).1 = false := by
  refine ⟨runOp_fUseCrypto op st h, (addKeyPubKey_crypted st k p h).2.1,
    (addKeyPubKey_crypted st k p h).2.2, (addSpendingKey_crypted st sk h).2.1,
    (addSpendingKey_crypted st sk h).2.2, ?_⟩
  simp [encryptKeys, isCrypted, h]

/-- C6 witness: at the concrete encrypted store, a Lock step keeps the
mode flag, the add operations keep the plaintext maps, and EncryptKeys
fails. -/
theorem c6_mode_monotonic_witness :
    (runOp Op.opLock stEnc).2.fUseCrypto = true
    ∧ (addKeyPubKey stEnc [] 0).2.mapKeys = stEnc.mapKeys
    ∧ (addKeyPubKey stEnc [] 0).2.mapSpendingKeys = stEnc.mapSpendingKeys
    ∧ (addSpendingKey stEnc 0).2.mapKeys = stEnc.mapKeys
    ∧ (addSpendingKey stEnc 0).2.mapSpendingKeys = stEnc.mapSpendingKeys
    ∧ (encryptKeys stEnc []).1 = false :=
  c6_mode_monotonic stEnc Op.opLock [] 0 0 [] rfl

/-- C7: an Unlock on a store in encrypted mode in which no attempted
per-entry decryption succeeds — including the case of two empty
encrypted maps, where nothing is attempted — returns the
wrong-passphrase failure, leaves the entire state unchanged (in
particular the stored master key and the thorough-check flag), and
emits no observer notification. -/
theorem c7_no_success_wrong_passphrase (st : KeyStore) (mk : List Nat)
    (hc : st.fUseCrypto = true)
    (hall : ∀ b ∈ (unlockScan st mk).attempts, b = false) :
    unlock st mk = (UnlockRes.wrongPassphrase, st, false) := by
  have hpass : (unlockScan st mk).pass = false := by
    cases hp : (unlockScan st mk).pass
    · rfl
    · exact absurd (hall true ((unlockScan_pass_iff st mk).1 hp)) (by simp)
  simp [unlock, hc, unlockBody, hpass]

/-- C7 witness: at the concrete locked store holding one undecryptable
record, Unlock fails with the wrong-passphrase outcome and changes
nothing. -/
theorem c7_no_success_wrong_passphrase_witness :
    unlock stC7 mkW = (UnlockRes.wrongPassphrase, stC7, false) :=
  c7_no_success_wrong_passphrase stC7 mkW rfl (by decide)

/-- C8: GetKey on an encrypted store with a 32-byte master key held:
a missing record yields not-found; a successful result always carries a
secret whose reconstructed public key equals the stored public
identity; a decryption that yields a well-sized secret with a
mismatching reconstructed public key yields the mismatch failure; and a
record inserted as the encryption of a 32-byte secret under the held
master key and the nonce hash of its public identity — the same
derivation used at insertion — is decrypted back to exactly that
secret. -/
theorem c8_getKey_encrypted (st : KeyStore) (address pub : Nat) (ct sk : List Nat)
    (hc : st.fUseCrypto = true)
    (hm : st.vMasterKey.length = 32) :
    (lookupA address st.mapCryptedKeys = none → getKey st address = GetKeyRes.notFound)
    ∧ ((lookupA address st.mapCryptedKeys = some (pub, ct)
        ∧ getKey st address = GetKeyRes.ok sk) → pubkeyOf sk = pub)
    ∧ ((lookupA address st.mapCryptedKeys = some (pub, ct)
        ∧ decryptSecret st.vMasterKey ct (hashOf pub) = DecResult.ok sk
        ∧ sk.length = 32 ∧ pubkeyOf sk ≠ pub) → getKey st address = GetKeyRes.mismatch)
    ∧ ((lookupA address st.mapCryptedKeys = some (pub, ct)
        ∧ ct = (encryptSecret st.vMasterKey sk (hashOf pub)).2
        ∧ sk.length = 32 ∧ pubkeyOf sk = pub) → getKey st address = GetKeyRes.ok sk) := by
  refine ⟨?_, ?_, ?_, ?_⟩
  · intro hl
    simp [getKey, isCrypted, hc, hl]
  · rintro ⟨hl, hok⟩
    simp only [getKey, isCrypted, hc, Bool.not_true, Bool.false_eq_true, if_false, hl] at hok
    cases heq : decryptSecret st.vMasterKey ct (hashOf pub) with
    | ok s =>
      rw [heq] at hok
      dsimp only at hok
      by_cases hlen : s.length = 32
      · by_cases hpk : pubkeyOf s = pub
        · rw [if_pos hlen, if_pos hpk] at hok
          have hs : s = sk := by simpa using hok
          rw [← hs]
          exact hpk
        · rw [if_pos hlen, if_neg hpk] at hok
          exact absurd hok (by simp)
      · rw [if_neg hlen] at hok
        exact absurd hok (by simp)
    | notReady => rw [heq] at hok; exact absurd hok (by simp)
    | hugeAlloc n => rw [heq] at hok; exact absurd hok (by simp)
    | fail => rw [heq] at hok; exact absurd hok (by simp)
  · rintro ⟨hl, hdec, hlen, hne⟩
    simp [getKey, isCrypted, hc, hl, hdec, hlen, hne]
  · rintro ⟨hl, hct, hlen, hpk⟩
    have hds : decryptSecret st.vMasterKey ct (hashOf pub) = DecResult.ok sk := by
      rw [hct]
      exact decryptSecret_encryptSecret st.vMasterKey sk (hashOf pub) hm (hashOf_length pub)
    simp [getKey, isCrypted, hc, hl, hds, hlen, hpk]

/-- C8 witness: at the concrete unlocked store, the record inserted for
skW under mkW is read back as exactly skW. -/
theorem c8_getKey_encrypted_witness :
    getKey stW (getID pubW) = GetKeyRes.ok skW :=
  (c8_getKey_encrypted stW (getID pubW) pubW ctW skW rfl (by decide)).2.2.2
    ⟨by decide, rfl, by decide, rfl⟩

/-- C9: for every keying-material buffer m and every (key, nonce) pair
of the fixed 32-byte sizes, a cipher keyed by SetKey encrypts m to a
ciphertext that Decrypt maps back to exactly m; likewise through the
EncryptSecret/DecryptSecret per-entry wrappers. -/
theorem c9_encrypt_decrypt_roundtrip (key iv m : List Nat)
    (hk : key.length = WALLET_CRYPTO_KEY_SIZE)
    (hiv : iv.length = WALLET_CRYPTO_KEY_SIZE) :
    (setKey freshCrypter key iv).1 = true
    ∧ (encrypt (setKey freshCrypter key iv).2 m).1 = true
    ∧ decrypt (setKey freshCrypter key iv).2 (encrypt (setKey freshCrypter key iv).2 m).2
        = DecResult.ok m
    ∧ decryptSecret key (encryptSecret key m iv).2 iv = DecResult.ok m := by
  have hset : setKey freshCrypter key iv = (true, ⟨key, iv, true⟩) := by
    simp [setKey, hk, hiv]
  refine ⟨by rw [hset], ?_, ?_, ?_⟩
  · rw [hset]
    simp [encrypt]
  · rw [hset]
    simp [encrypt, decrypt_of_secretboxEasy]
  · exact decryptSecret_encryptSecret key m iv (by simpa [WALLET_CRYPTO_KEY_SIZE] using hk)
      (by simpa [WALLET_CRYPTO_KEY_SIZE] using hiv)

/-- C9 witness: the concrete all-zero (key, nonce) pair round-trips the
buffer [1, 2, 3]. -/
theorem c9_encrypt_decrypt_roundtrip_witness :
    decrypt (setKey freshCrypter (List.replicate 32 0) (List.replicate 32 0)).2
      (encrypt (setKey freshCrypter (List.replicate 32 0) (List.replicate 32 0)).2 [1, 2, 3]).2
      = DecResult.ok [1, 2, 3] :=
  (c9_encrypt_decrypt_roundtrip (List.replicate 32 0) (List.replicate 32 0) [1, 2, 3]
    (by decide) (by decide)).2.2.1

/-- C10: Lock on a plain store with both plaintext maps empty succeeds,
switches the store into encrypted mode (and the flag survives any
subsequent operation), clears the master key and notifies; Lock on a
plain store with a plaintext entry in either map fails, changes
nothing, and does not notify. -/
theorem c10_lock_plain (st : KeyStore) (op : Op) (h : st.fUseCrypto = false) :
    (st.mapKeys = [] → st.mapSpendingKeys = [] →
      lock st = (true, { st with fUseCrypto := true, vMasterKey := [] }, true)
      ∧ (runOp op { st with fUseCrypto := true, vMasterKey := [] }).2.fUseCrypto = true)
    ∧ (¬(st.mapKeys = [] ∧ st.mapSpendingKeys = []) → lock st = (false, st, false)) := by
  constructor
  · intro h1 h2
    have hsc : setCrypted st = (true, { st with fUseCrypto := true }) := by
      simp [setCrypted, h, h1, h2]
    constructor
    · simp [lock, hsc]
    · exact runOp_fUseCrypto op _ rfl
  · intro hne
    have hnc : ¬(st.mapKeys.isEmpty && st.mapSpendingKeys.isEmpty) = true := by
      simp only [Bool.and_eq_true, List.isEmpty_iff]
      exact hne
    have hsc : setCrypted st = (false, st) := by
      simp [setCrypted, h, hnc]
    simp [lock, hsc]

/-- C10 witness: Lock on the concrete empty plain store succeeds,
switches it into encrypted mode, and the flag survives a subsequent
EncryptKeys step. -/
theorem c10_lock_plain_witness :
    lock stPlainEmpty = (true, { stPlainEmpty with fUseCrypto := true, vMasterKey := [] }, true)
    ∧ (runOp (Op.opEncryptKeys []) { stPlainEmpty with fUseCrypto := true, vMasterKey := [] }).2.fUseCrypto = true :=
  (c10_lock_plain stPlainEmpty (Op.opEncryptKeys []) rfl).1 rfl rfl
